import Mathlib

/-!
Verification development for the TradingView multi-tab stock scraper
(`stock_usa.py`). The Python source is shallowly embedded: pure data
transformations become Lean functions over `List`/`String`/`Option`;
the browser environment (clicks, row counts, visibility probes) is an
explicit input; numeric cell values are modelled exactly as rationals.
-/

namespace StockUSA

/-- Python whitespace characters recognised by `str.strip` / `\s` (ASCII range). -/
def pyWs (c : Char) : Bool :=
  c = ' ' || c = '\t' || c = '\n' || c = '\x0d' || c = '\x0c' || c = '\x0b'

/-- Python `str.strip()`: drop leading and trailing whitespace. -/
def pyStrip (s : String) : String :=
  ⟨((s.data.dropWhile pyWs).reverse.dropWhile pyWs).reverse⟩

/-- Python `str.lower()` restricted to ASCII letters, which is all the
scraper's header tokens use. -/
def pyLower (s : String) : String :=
  ⟨s.data.map Char.toLower⟩

/-- Removing every occurrence of the given characters, the composition of
Python `str.replace(c, '')` calls. -/
def removeChars (s : String) (cs : List Char) : String :=
  ⟨s.data.filter (fun c => !cs.contains c)⟩

/-! ### `extract_table_data_fast`: header expansion and column-count reconciliation
(`stock_usa.py` lines 184-207). -/

/-- Header adjustment of `extract_table_data_fast`: when the first header
token lowercases to `ticker` or `symbol`, the pair `Ticker`, `Company Name`
replaces it (source lines 188-191). -/
def adjust_headers (headers : List String) : List String :=
  match headers with
  | [] => []
  | h :: t =>
    if pyLower h = "ticker" || pyLower h = "symbol" then
      "Ticker" :: "Company Name" :: t
    else
      h :: t

/-- `max_cols` of `extract_table_data_fast` (source line 196): the maximum
row width when rows exist, otherwise the header width. -/
def max_cols (headers_adj : List String) (rows_data : List (List String)) : Nat :=
  match rows_data with
  | [] => headers_adj.length
  | _ => (rows_data.map List.length).foldl Nat.max 0

/-- Header reconciliation of `extract_table_data_fast` (source lines
199-202): pad with `Column_i` placeholders up to `mc`, or truncate to `mc`. -/
def reconcile_headers (headers_adj : List String) (mc : Nat) : List String :=
  if headers_adj.length < mc then
    headers_adj ++
      (List.range' headers_adj.length (mc - headers_adj.length)).map
        (fun i => "Column_" ++ toString i)
  else
    headers_adj.take mc

/-- Row padding of `extract_table_data_fast` (source line 205): extend every
row with empty strings on the right to width `mc`. -/
def pad_rows (rows_data : List (List String)) (mc : Nat) : List (List String) :=
  rows_data.map (fun row => row ++ List.replicate (mc - row.length) "")

/-- The pure tail of `extract_table_data_fast` (source lines 184-207):
adjust the headers, and when both the adjusted header list and the row list
are non-empty, reconcile column counts; otherwise no table is built
(`None`, the empty-DataFrame path). -/
def extract_table_post (headers : List String) (rows_data : List (List String)) :
    Option (List String × List (List String)) :=
  let headers_adj := adjust_headers headers
  if headers_adj ≠ [] ∧ rows_data ≠ [] then
    let mc := max_cols headers_adj rows_data
    some (reconcile_headers headers_adj mc, pad_rows rows_data mc)
  else
    none

theorem le_foldl_max_init (l : List Nat) (a : Nat) : a ≤ l.foldl Nat.max a := by
  induction l generalizing a with
  | nil => exact Nat.le_refl a
  | cons y ys ih => exact le_trans (Nat.le_max_left a y) (ih (Nat.max a y))

theorem foldl_max_le_of_mem {l : List Nat} {x : Nat} (a : Nat) (hx : x ∈ l) :
    x ≤ l.foldl Nat.max a := by
  induction l generalizing a with
  | nil => cases hx
  | cons y ys ih =>
    rcases List.mem_cons.mp hx with rfl | hx'
    · exact le_trans (Nat.le_max_right a x) (le_foldl_max_init ys (Nat.max a x))
    · exact ih (Nat.max a y) hx'

theorem length_le_max_cols {headers_adj : List String}
    {rows_data : List (List String)} {row : List String}
    (hrow : row ∈ rows_data) : row.length ≤ max_cols headers_adj rows_data := by
  cases rows_data with
  | nil => cases hrow
  | cons r rs =>
    exact foldl_max_le_of_mem 0 (List.mem_map_of_mem List.length hrow)

theorem reconcile_headers_length (headers_adj : List String) (mc : Nat) :
    (reconcile_headers headers_adj mc).length = mc := by
  unfold reconcile_headers
  split
  · simp [List.length_append, List.length_map, List.length_range']
    omega
  · simp [List.length_take]
    omega

theorem pad_rows_length {rows_data : List (List String)} {mc : Nat}
    {row : List String} (hrow : row ∈ pad_rows rows_data mc)
    (hle : ∀ r ∈ rows_data, r.length ≤ mc) : row.length = mc := by
  unfold pad_rows at hrow
  rcases List.mem_map.mp hrow with ⟨r, hr, rfl⟩
  have := hle r hr
  simp [List.length_append, List.length_replicate]
  omega

/-! ### DataFrame model and `split_ticker_column` (`stock_usa.py` lines 223-262).
A DataFrame is an ordered list of named columns; a cell is `none` for NaN,
`some s` for the string `s`. -/

abbrev Cell := Option String

abbrev DF := List (String × List Cell)

/-- Column-name membership, `name in df.columns`. -/
def hasCol (df : DF) (n : String) : Bool :=
  df.any (fun c => c.1 == n)

/-- Column selection `df[n]` (first column with that name; `[]` if absent). -/
def getCol (df : DF) (n : String) : List Cell :=
  match df with
  | [] => []
  | c :: rest => if c.1 == n then c.2 else getCol rest n

/-- Column assignment `df[n] = v` (replaces the values of columns named `n`). -/
def setCol (df : DF) (n : String) (v : List Cell) : DF :=
  df.map (fun c => if c.1 == n then (c.1, v) else c)

/-- `df.insert(1, name, value)`: place a new column at position 1. The
scraper only calls it when a `Ticker` column exists, so `df` is non-empty. -/
def insertAt1 (x : String × List Cell) (df : DF) : DF :=
  match df with
  | [] => [x]
  | c :: rest => c :: x :: rest

/-- Python `text.split('\n')` on a character list: split on every newline,
keeping empty segments. -/
def splitOnNl : List Char → List (List Char)
  | [] => [[]]
  | c :: rest =>
    let r := splitOnNl rest
    if c = '\n' then [] :: r else (c :: r.headD []) :: r.tail

/-- Python `' '.join(l)`. -/
def joinSpace : List String → String
  | [] => ""
  | [s] => s
  | s :: rest => s ++ " " ++ joinSpace rest

/-- Python `str.isupper()` (ASCII model): at least one cased character and
no lowercase cased character. -/
def pyIsUpperString (s : String) : Bool :=
  s.data.any (fun c => c.isAlpha) && s.data.all (fun c => !c.isLower)

/-- Uppercase ASCII letter, the character class `[A-Z]`. -/
def upperAZ (c : Char) : Bool :=
  'A' ≤ c && c ≤ 'Z'

/-- The anchored match of `([A-Z]\x7b1,5\x7d)\s+(.+)$` used by
`extract_ticker_parts` (source line 249). The input is already stripped and
contains no newline (the newline case was handled earlier), so a match
splits at the maximal uppercase run (length 1..5) followed by a whitespace
run, with a non-empty remainder. -/
def tickerPatternSplit (s : String) : Option (String × String) :=
  let cs := s.data
  let p := (cs.takeWhile upperAZ).length
  let rest := cs.drop p
  if 1 ≤ p ∧ p ≤ 5 then
    match rest with
    | [] => none
    | c :: _ =>
      if pyWs c then
        let tail := rest.dropWhile pyWs
        if tail = [] then none
        else some (⟨cs.take p⟩, ⟨tail⟩)
      else none
  else none

/-- `extract_ticker_parts` of `split_ticker_column` (source lines 233-253):
classify a ticker-column cell into a (symbol, company-name) pair. -/
def extract_ticker_parts (cell : Cell) : String × String :=
  match cell with
  | none => ("", "")
  | some t =>
    if t = "" then ("", "")
    else
      let lines := (splitOnNl t.data).map (fun l => (⟨l⟩ : String))
      if lines.length ≥ 2 then
        (pyStrip (lines.headD ""), pyStrip (joinSpace lines.tail))
      else
        let text := pyStrip t
        if text.length ≤ 5 && pyIsUpperString text then
          (text, "")
        else
          match tickerPatternSplit text with
          | some pr => pr
          | none => (text, "")

/-- Source lines 255-256: insert an empty `Company Name` column at position
1 when absent (pandas broadcasts the scalar `''` over the index). -/
def split_df1 (df : DF) : DF :=
  if hasCol df "Company Name" then df
  else insertAt1 ("Company Name", List.replicate (getCol df "Ticker").length (some "")) df

/-- Source line 258: `ticker_parts = df['Ticker'].apply(extract_ticker_parts)`. -/
def split_parts (df : DF) : List (String × String) :=
  (getCol (split_df1 df) "Ticker").map extract_ticker_parts

/-- The splitting branch of `split_ticker_column` (source lines 255-260):
insert an empty `Company Name` column when absent, then overwrite `Ticker`
and `Company Name` from `extract_ticker_parts`. -/
def split_run (df : DF) : DF :=
  setCol (setCol (split_df1 df) "Ticker" ((split_parts df).map (fun p => some p.1)))
    "Company Name" ((split_parts df).map (fun p => some p.2))

/-- `split_ticker_column` (source lines 223-262): a no-op without a `Ticker`
column or with a populated (`notna().any()`) `Company Name` column,
otherwise run the split. -/
def split_ticker_column (df : DF) : DF :=
  if !hasCol df "Ticker" then df
  else if hasCol df "Company Name" && (getCol df "Company Name").any (fun c => c.isSome) then df
  else split_run df

theorem setCol_fst (n : String) (v : List Cell) (e : String × List Cell) :
    ((if e.1 == n then (e.1, v) else e) : String × List Cell).1 = e.1 := by
  by_cases h : e.1 == n
  · rw [if_pos h]
  · rw [if_neg h]

theorem hasCol_setCol (df : DF) (n m : String) (v : List Cell) :
    hasCol (setCol df n v) m = hasCol df m := by
  unfold hasCol setCol
  rw [List.any_map]
  congr 1
  funext e
  simp only [Function.comp_apply, setCol_fst]

theorem getCol_setCol_same (df : DF) (n : String) (v : List Cell)
    (h : hasCol df n = true) : getCol (setCol df n v) n = v := by
  induction df with
  | nil => simp [hasCol] at h
  | cons c cs ih =>
    show getCol ((if c.1 == n then (c.1, v) else c) :: setCol cs n v) n = v
    by_cases hc : c.1 == n
    · rw [if_pos hc]
      show (if ((c.1, v).1 == n) then (c.1, v).2 else getCol (setCol cs n v) n) = v
      rw [if_pos hc]
    · rw [if_neg hc]
      show (if (c.1 == n) then c.2 else getCol (setCol cs n v) n) = v
      rw [if_neg hc]
      apply ih
      have hfalse : (c.1 == n) = false := by simpa using hc
      simpa [hasCol, hfalse] using h

theorem getCol_setCol_other (df : DF) (n m : String) (v : List Cell)
    (hnm : n ≠ m) : getCol (setCol df n v) m = getCol df m := by
  induction df with
  | nil => rfl
  | cons c cs ih =>
    show getCol ((if c.1 == n then (c.1, v) else c) :: setCol cs n v) m =
      getCol (c :: cs) m
    by_cases hc : c.1 == n
    · have hm : ¬((c.1 == m) = true) := by
        intro he
        apply hnm
        have h1 : c.1 = n := by simpa using hc
        have h2 : c.1 = m := by simpa using he
        rw [← h1, h2]
      rw [if_pos hc]
      show (if ((c.1, v).1 == m) then (c.1, v).2 else getCol (setCol cs n v) m) =
        getCol (c :: cs) m
      rw [if_neg hm, ih]
      show getCol cs m = if (c.1 == m) then c.2 else getCol cs m
      rw [if_neg hm]
    · rw [if_neg hc]
      show (if (c.1 == m) then c.2 else getCol (setCol cs n v) m) =
        if (c.1 == m) then c.2 else getCol cs m
      by_cases hm2 : c.1 == m
      · rw [if_pos hm2, if_pos hm2]
      · rw [if_neg hm2, if_neg hm2, ih]

theorem mem_setCol {df : DF} {n : String} {v : List Cell} {c : String × List Cell}
    (hc : c ∈ setCol df n v) : (c.1 = n ∧ c.2 = v) ∨ (c ∈ df ∧ c.1 ≠ n) := by
  rcases List.mem_map.mp hc with ⟨c0, hc0, rfl⟩
  by_cases h : c0.1 == n
  · rw [if_pos h]
    exact Or.inl ⟨by simpa using h, rfl⟩
  · rw [if_neg h]
    exact Or.inr ⟨hc0, by simpa using h⟩

theorem setCol_id {df : DF} {n : String} {v : List Cell}
    (h : ∀ c ∈ df, c.1 = n → c.2 = v) : setCol df n v = df := by
  induction df with
  | nil => rfl
  | cons c cs ih =>
    show (if c.1 == n then (c.1, v) else c) :: setCol cs n v = c :: cs
    have htail : setCol cs n v = cs :=
      ih (fun e he h' => h e (List.mem_cons_of_mem _ he) h')
    rw [htail]
    by_cases hc : c.1 == n
    · have h2 := h c (List.mem_cons_self _ _) (by simpa using hc)
      rw [if_pos hc, ← h2]
    · rw [if_neg hc]

theorem hasCol_split_df1_company (df : DF) (hT : hasCol df "Ticker" = true) :
    hasCol (split_df1 df) "Company Name" = true := by
  unfold split_df1
  by_cases h : hasCol df "Company Name"
  · rw [if_pos h]
    exact h
  · rw [if_neg h]
    cases df with
    | nil => simp [hasCol] at hT
    | cons c cs => simp [insertAt1, hasCol]

theorem hasCol_split_df1_ticker (df : DF) (hT : hasCol df "Ticker" = true) :
    hasCol (split_df1 df) "Ticker" = true := by
  unfold split_df1
  by_cases h : hasCol df "Company Name"
  · rw [if_pos h]
    exact hT
  · rw [if_neg h]
    cases df with
    | nil => simp [hasCol] at hT
    | cons c cs =>
      simp only [insertAt1, hasCol, List.any_cons, Bool.or_eq_true] at hT ⊢
      rcases hT with hT | hT
      · exact Or.inl hT
      · exact Or.inr (Or.inr hT)

theorem getCol_split_df1_ticker (df : DF) (hT : hasCol df "Ticker" = true) :
    getCol (split_df1 df) "Ticker" = getCol df "Ticker" := by
  unfold split_df1
  by_cases h : hasCol df "Company Name"
  · rw [if_pos h]
  · rw [if_neg h]
    cases df with
    | nil => simp [hasCol] at hT
    | cons c cs =>
      have hcn : (("Company Name" : String) == "Ticker") = false := by decide
      by_cases hc : c.1 == "Ticker" <;> simp [insertAt1, getCol, hc, hcn]

theorem split_run_def (df : DF) :
    split_run df =
      setCol (setCol (split_df1 df) "Ticker" ((split_parts df).map (fun p => some p.1)))
        "Company Name" ((split_parts df).map (fun p => some p.2)) := rfl

/-! ### `load_all_rows` (source lines 79-123): the pagination driver. -/

/-- Outcome of one iteration of the Load More loop, as decided by the page:
the control is visible and the click round succeeds, the control is not
visible within the probe timeout, the probe raises `PlaywrightTimeout`, or
some other exception is raised. -/
inductive LMEvent
  | visible
  | notVisible
  | timeout
  | error
deriving DecidableEq

/-- The Load More loop of `load_all_rows` (source lines 88-116), driven by a
finite trace of page responses. Arguments are the remaining trace and the
loop variables `clicks` and `consecutive_failures`; the result is the final
click count together with the number of loop iterations consumed. The click
budget `max_clicks = 150` appears as the literal bound. -/
def lm_loop : List LMEvent → Nat → Nat → Nat × Nat
  | [], clicks, _ => (clicks, 0)
  | e :: rest, clicks, fails =>
    if clicks < 150 then
      match e with
      | .visible =>
        let r := lm_loop rest (clicks + 1) 0
        (r.1, r.2 + 1)
      | .notVisible => (clicks, 1)
      | .timeout =>
        if fails + 1 ≥ 2 then (clicks, 1)
        else
          let r := lm_loop rest clicks (fails + 1)
          (r.1, r.2 + 1)
      | .error => (clicks, 1)
    else (clicks, 0)

/-! ### `format_excel_professionally`: per-cell number detection and
conversion (source lines 356-419). -/

/-- Value of a digit string read left to right. -/
def digitsVal (l : List Char) : Nat :=
  l.foldl (fun acc c => acc * 10 + (c.toNat - '0'.toNat)) 0

/-- All characters are decimal digits (`str.isdigit`, ASCII model). -/
def allDigits (l : List Char) : Bool :=
  l.all Char.isDigit

/-- Everything before the first separator, and the remainder after it when
one occurs. -/
def splitFirst (p : Char → Bool) : List Char → List Char × Option (List Char)
  | [] => ([], none)
  | c :: rest =>
    if p c then ([], some rest)
    else
      let r := splitFirst p rest
      (c :: r.1, r.2)

/-- The mantissa grammar of Python `float`: `digits`, `digits.digits`,
`digits.` or `.digits`, with at least one digit. -/
def parseMantissa (l : List Char) : Option ℚ :=
  match splitFirst (fun c => c = '.') l with
  | (ip, none) =>
    if ip ≠ [] && allDigits ip then some ((digitsVal ip : ℚ)) else none
  | (ip, some fp) =>
    if fp.contains '.' then none
    else if (ip ++ fp) ≠ [] && allDigits ip && allDigits fp then
      some ((digitsVal ip : ℚ) + (digitsVal fp : ℚ) / (10 : ℚ) ^ fp.length)
    else none

/-- The exponent part of Python `float`: optional sign, then digits. -/
def parseExp (l : List Char) : Option ℚ :=
  let sd : Bool × List Char :=
    match l with
    | '+' :: r => (true, r)
    | '-' :: r => (false, r)
    | r => (true, r)
  if sd.2 ≠ [] && allDigits sd.2 then
    some (if sd.1 then (10 : ℚ) ^ digitsVal sd.2 else 1 / (10 : ℚ) ^ digitsVal sd.2)
  else none

/-- Python `float(s)` on the strings the scraper feeds it: optional
surrounding whitespace, optional sign, mantissa, optional decimal exponent.
The value is exact (`ℚ` in place of an IEEE double, which is faithful for
every magnitude comparison and example in the spec); the special forms
`inf`, `nan` and digit underscores are not modelled. -/
def pyFloat (s : String) : Option ℚ :=
  let cs := (pyStrip s).data
  let sgncs : ℚ × List Char :=
    match cs with
    | '+' :: r => (1, r)
    | '-' :: r => (-1, r)
    | r => (1, r)
  match splitFirst (fun c => c = 'e' || c = 'E') sgncs.2 with
  | (mant, none) => (parseMantissa mant).map (fun q => sgncs.1 * q)
  | (mant, some ex) =>
    match parseMantissa mant, parseExp ex with
    | some m, some e => some (sgncs.1 * m * e)
    | _, _ => none

/-- The guard `cell_value.replace(',','').replace('.','').replace('-','')
.replace('+','').isdigit()` (source lines 380-381 and 408). -/
def strippedDigitsTest (cv : String) : Bool :=
  (removeChars cv [',', '.', '-', '+']) ≠ "" &&
    allDigits (removeChars cv [',', '.', '-', '+']).data

/-- Python `abs` on the exact rational model. -/
def pyAbs (q : ℚ) : ℚ :=
  if q < 0 then -q else q

/-- The magnitude-based currency display format (source lines 387-394). -/
def currency_number_format (num : ℚ) : String :=
  if pyAbs num ≥ 1000000000 then "$#,##0.00,,\"B\""
  else if pyAbs num ≥ 1000000 then "$#,##0.00,\"M\""
  else if pyAbs num ≥ 1000 then "$#,##0.00,\"K\""
  else "$#,##0.00"

/-- Which arm of the `if/elif` chain of the data-cell pass handled a cell. -/
inductive FmtBranch
  | untouched
  | skipTicker
  | percent
  | currency
  | plainNumber
  | textOnly
deriving DecidableEq

/-- Result of the data-cell pass on one cell: the numeric value written back
(when parsing succeeded), the number format, and the horizontal alignment. -/
structure FmtResult where
  value : Option ℚ
  numFmt : Option String
  halign : Option String
  branch : FmtBranch
deriving DecidableEq

/-- The `if/elif` chain of `format_excel_professionally` (source lines
369-419) applied to the already-stripped cell text `cv` of a column beyond
the guard `col_idx <= 2`. -/
def formatStripped (col_idx : Nat) (cv : String) : FmtResult :=
  if col_idx ≤ 2 then ⟨none, none, some "left", .skipTicker⟩
  else if cv.data.contains '%' then
    match pyFloat (removeChars cv ['%', ',']) with
    | some num => ⟨some (num / 100), some "0.00%", some "right", .percent⟩
    | none => ⟨none, none, some "right", .percent⟩
  else if cv.data.contains '$' || strippedDigitsTest cv then
    match pyFloat (removeChars cv ['$', ',', '+']) with
    | some num => ⟨some num, some (currency_number_format num), some "right", .currency⟩
    | none =>
      match pyFloat (removeChars cv [',', '+']) with
      | some num => ⟨some num, some "#,##0.00", some "right", .currency⟩
      | none => ⟨none, none, some "left", .currency⟩
  else if strippedDigitsTest cv then
    match pyFloat (removeChars cv [',', '+']) with
    | some num => ⟨some num, some "#,##0.00", some "right", .plainNumber⟩
    | none => ⟨none, none, some "left", .plainNumber⟩
  else ⟨none, none, some "left", .textOnly⟩

/-- The per-cell body of the data pass (source lines 356-419): `None` or
empty cells only receive a border; other cells are stringified, stripped
and classified by `formatStripped`. -/
def formatDataCell (col_idx : Nat) (cellVal : Option String) : FmtResult :=
  match cellVal with
  | none => ⟨none, none, none, .untouched⟩
  | some s =>
    if s = "" then ⟨none, none, none, .untouched⟩
    else formatStripped col_idx (pyStrip s)

theorem pyWs_spec {c : Char} (h : pyWs c = true) :
    c = ' ' ∨ c = '\t' ∨ c = '\n' ∨ c = '\x0d' ∨ c = '\x0c' ∨ c = '\x0b' := by
  have h' := h
  simp only [pyWs, Bool.or_eq_true, decide_eq_true_eq] at h'
  tauto

theorem dropWhile_eq_self_of {p : Char → Bool} {l : List Char}
    (h : ∀ c ∈ l, p c = false) : l.dropWhile p = l := by
  cases l with
  | nil => rfl
  | cons c cs =>
    rw [List.dropWhile_cons]
    rw [h c (List.mem_cons_self _ _)]
    simp

theorem pyStrip_eq_self {s : String} (h : ∀ c ∈ s.data, pyWs c = false) :
    pyStrip s = s := by
  unfold pyStrip
  rw [dropWhile_eq_self_of h,
    dropWhile_eq_self_of (fun c hc => h c (List.mem_reverse.mp hc)),
    List.reverse_reverse]

theorem strippedDigits_no_ws {s : String} (h : strippedDigitsTest s = true) :
    ∀ c ∈ s.data, pyWs c = false := by
  intro c hc
  cases hpw : pyWs c with
  | false => rfl
  | true =>
    exfalso
    unfold strippedDigitsTest at h
    rw [Bool.and_eq_true] at h
    have hmem : c ∈ (removeChars s [',', '.', '-', '+']).data := by
      show c ∈ s.data.filter (fun c => !([',', '.', '-', '+'].contains c))
      apply List.mem_filter.mpr
      refine ⟨hc, ?_⟩
      rcases pyWs_spec hpw with rfl | rfl | rfl | rfl | rfl | rfl <;> decide
    have hdigit := List.all_eq_true.mp h.2 c hmem
    rcases pyWs_spec hpw with rfl | rfl | rfl | rfl | rfl | rfl <;>
      exact absurd hdigit (by decide)

/-- The page-side inputs of one `load_all_rows` call: the row count sampled
on entry (used by the non-first-tab skip check), the Load More loop
responses, and the row count re-sampled after the loop. -/
structure LoadEnv where
  preCount : Nat
  events : List LMEvent
  finalCount : Nat

/-- `load_all_rows` (source lines 79-123): the returned pair is the click
count (the function's return value) and the updated `total_rows_loaded`
field. A non-first tab whose sampled row count is at least 95% of the
cumulative maximum returns 0 immediately; otherwise the loop runs and the
re-sampled count updates the cumulative maximum when larger. -/
def load_all_rows (is_first_tab : Bool) (total_rows_loaded : Nat) (env : LoadEnv) :
    Nat × Nat :=
  if is_first_tab = false ∧ (env.preCount : ℚ) ≥ (total_rows_loaded : ℚ) * 0.95 then
    (0, total_rows_loaded)
  else
    let clicks := (lm_loop env.events 0 0).1
    let total' :=
      if env.finalCount > total_rows_loaded then env.finalCount else total_rows_loaded
    (clicks, total')

/-! ### `scrape_tab` / `scrape_all_tabs` (source lines 264-309). -/

/-- Page behaviour during one run: whether clicking each tab succeeds, and
the table the pagination-and-extraction pipeline would deliver for it. -/
structure TabEnv where
  clickOk : String → Bool
  extracted : String → DF

/-- `scrape_tab` (source lines 264-285): when tab activation fails, return
an empty DataFrame immediately; otherwise run pagination and extraction.
The Boolean records whether the pagination/extraction pipeline ran. -/
def scrape_tab (env : TabEnv) (tab_id _tab_name : String) : DF × Bool :=
  if env.clickOk tab_id then (env.extracted tab_id, true) else ([], false)

/-- The fixed ordered tab list of `scrape_all_tabs` (source lines 289-299). -/
def tabs : List (String × String) :=
  [("overview", "Overview"),
   ("performance", "Performance"),
   ("valuation", "Valuation"),
   ("dividends", "Dividends"),
   ("profitability", "Profitability"),
   ("incomeStatement", "Income Statement"),
   ("balanceSheet", "Balance Sheet"),
   ("cashFlow", "Cash Flow"),
   ("technicals", "Technicals")]

/-- `scrape_all_tabs` (source lines 287-309): process every tab in the
fixed order, recording each result under the tab's display name. -/
def scrape_all_tabs (env : TabEnv) : List (String × DF) :=
  tabs.map (fun p => (p.2, (scrape_tab env p.1 p.2).1))

/-! ### `close` (source lines 37-51): guarded teardown. -/

/-- Which teardown calls raise, as decided by the environment. -/
structure CloseEnv where
  browserCloseFails : Option String
  playwrightStopFails : Option String

/-- The `browser`/`playwright` fields of the scraper at `close` time
(`true` when the field holds a live resource, `false` for `None`). -/
structure ScraperRes where
  browser : Bool
  playwright : Bool

/-- Body of the first `try` block (source lines 40-42): close the browser
when the field is set, yielding the log line, or raise. -/
def closeBrowserStep (res : ScraperRes) (env : CloseEnv) : Except String (List String) :=
  if res.browser then
    match env.browserCloseFails with
    | some e => .error e
    | none => .ok ["🔒 Browser closed"]
  else .ok []

/-- Body of the second `try` block (source lines 47-49): stop the
automation engine when the field is set, or raise. -/
def stopPlaywrightStep (res : ScraperRes) (env : CloseEnv) : Except String (List String) :=
  if res.playwright then
    match env.playwrightStopFails with
    | some e => .error e
    | none => .ok ["🔒 Playwright stopped"]
  else .ok []

/-- A Python `try/except Exception` block that logs and swallows the
exception (source lines 39-44 and 46-51). -/
def pyTryLog (body : Except String (List String)) (handler : String → String) :
    Except String (List String) :=
  match body with
  | .ok l => .ok l
  | .error e => .ok [handler e]

/-- `close` (source lines 37-51): two independently guarded teardown
blocks, browser first, then the engine. -/
def close (res : ScraperRes) (env : CloseEnv) : Except String (List String) := do
  let l1 ← pyTryLog (closeBrowserStep res env) (fun e => "⚠ Error closing browser: " ++ e)
  let l2 ← pyTryLog (stopPlaywrightStep res env) (fun e => "⚠ Error stopping playwright: " ++ e)
  pure (l1 ++ l2)

theorem pyTryLog_ok (body : Except String (List String)) (h : String → String) :
    ∃ l, pyTryLog body h = Except.ok l := by
  cases body with
  | ok l => exact ⟨l, rfl⟩
  | error e => exact ⟨[h e], rfl⟩

theorem lm_loop_clicks_le (evs : List LMEvent) (c f : Nat) (hc : c ≤ 150) :
    (lm_loop evs c f).1 ≤ 150 := by
  induction evs generalizing c f with
  | nil => simpa [lm_loop]
  | cons e rest ih =>
    unfold lm_loop
    by_cases h : c < 150
    · rw [if_pos h]
      cases e with
      | visible => exact ih (c + 1) 0 (by omega)
      | notVisible => exact hc
      | timeout =>
        by_cases h2 : f + 1 ≥ 2
        · rw [if_pos h2]
          exact hc
        · rw [if_neg h2]
          exact ih c (f + 1) hc
      | error => exact hc
    · rw [if_neg h]
      exact hc

theorem lm_loop_consumed_le (evs : List LMEvent) (c f : Nat) (hf : f ≤ 1) :
    (lm_loop evs c f).2 ≤ 2 * (150 - c) + 2 - f := by
  induction evs generalizing c f with
  | nil => simp [lm_loop]
  | cons e rest ih =>
    unfold lm_loop
    by_cases h : c < 150
    · rw [if_pos h]
      cases e with
      | visible =>
        have hr := ih (c + 1) 0 (by omega)
        show (lm_loop rest (c + 1) 0).2 + 1 ≤ 2 * (150 - c) + 2 - f
        omega
      | notVisible =>
        show 1 ≤ 2 * (150 - c) + 2 - f
        omega
      | timeout =>
        by_cases h2 : f + 1 ≥ 2
        · rw [if_pos h2]
          show 1 ≤ 2 * (150 - c) + 2 - f
          omega
        · rw [if_neg h2]
          have hr := ih c (f + 1) (by omega)
          show (lm_loop rest c (f + 1)).2 + 1 ≤ 2 * (150 - c) + 2 - f
          omega
      | error =>
        show 1 ≤ 2 * (150 - c) + 2 - f
        omega
    · rw [if_neg h]
      simp

theorem lm_loop_clicks_count (evs : List LMEvent) (c f : Nat) :
    (lm_loop evs c f).1 =
      c + (evs.take (lm_loop evs c f).2).count LMEvent.visible := by
  induction evs generalizing c f with
  | nil => simp [lm_loop]
  | cons e rest ih =>
    unfold lm_loop
    by_cases h : c < 150
    · rw [if_pos h]
      cases e with
      | visible =>
        have hr := ih (c + 1) 0
        show (lm_loop rest (c + 1) 0).1 =
          c + ((LMEvent.visible :: rest).take ((lm_loop rest (c + 1) 0).2 + 1)).count
              LMEvent.visible
        simp only [List.take_succ_cons, List.count_cons]
        simp only [beq_self_eq_true, if_true]
        omega
      | notVisible => simp
      | timeout =>
        by_cases h2 : f + 1 ≥ 2
        · rw [if_pos h2]
          simp
        · rw [if_neg h2]
          have hr := ih c (f + 1)
          show (lm_loop rest c (f + 1)).1 =
            c + ((LMEvent.timeout :: rest).take ((lm_loop rest c (f + 1)).2 + 1)).count
                LMEvent.visible
          rw [List.take_succ_cons, List.count_cons,
            show (LMEvent.timeout == LMEvent.visible) = false from rfl,
            if_neg Bool.false_ne_true]
          omega
      | error => simp
    · rw [if_neg h]
      simp

theorem company_ne_ticker : ("Company Name" : String) ≠ "Ticker" := by decide

theorem split_ticker_noop (df : DF)
    (h1 : hasCol df "Company Name" = true)
    (h2 : (getCol df "Company Name").any (fun c => c.isSome) = true) :
    split_ticker_column df = df := by
  by_cases hT : hasCol df "Ticker" <;> simp [split_ticker_column, hT, h1, h2]

theorem split_run_fixed (df : DF) (hT : hasCol df "Ticker" = true) :
    split_ticker_column (split_run df) = split_run df := by
  have hCN1 : hasCol (split_df1 df) "Company Name" = true := hasCol_split_df1_company df hT
  have hT1 : hasCol (split_df1 df) "Ticker" = true := hasCol_split_df1_ticker df hT
  have hT3 : hasCol (split_run df) "Ticker" = true := by
    rw [split_run_def, hasCol_setCol, hasCol_setCol]
    exact hT1
  have hCN3 : hasCol (split_run df) "Company Name" = true := by
    rw [split_run_def, hasCol_setCol, hasCol_setCol]
    exact hCN1
  have hCN3get : getCol (split_run df) "Company Name" =
      (split_parts df).map (fun p => some p.2) := by
    rw [split_run_def]
    apply getCol_setCol_same
    rw [hasCol_setCol]
    exact hCN1
  cases hps : split_parts df with
  | cons p ps' =>
    have hAny : (getCol (split_run df) "Company Name").any (fun c => c.isSome) = true := by
      rw [hCN3get, hps]
      simp
    simp [split_ticker_column, hT3, hCN3, hAny]
  | nil =>
    -- zero-row frame: the recursive call recomputes empty columns and is a
    -- fixed point
    have hCNempty : getCol (split_run df) "Company Name" = [] := by
      rw [hCN3get, hps]
      rfl
    have hTickEmpty : getCol (split_run df) "Ticker" = [] := by
      rw [split_run_def, getCol_setCol_other _ _ _ _ company_ne_ticker,
        getCol_setCol_same (split_df1 df) "Ticker" _ hT1, hps]
      rfl
    have hd1' : split_df1 (split_run df) = split_run df := by
      unfold split_df1
      rw [if_pos hCN3]
    have hps' : split_parts (split_run df) = [] := by
      unfold split_parts
      rw [hd1', hTickEmpty]
      rfl
    have hTvals : ∀ c ∈ split_run df, c.1 = "Ticker" → c.2 = [] := by
      intro c hc hct
      rw [split_run_def] at hc
      rcases mem_setCol hc with ⟨h1, _⟩ | ⟨hc2, _⟩
      · exact absurd (hct ▸ h1) company_ne_ticker.symm
      · rcases mem_setCol hc2 with ⟨_, h2⟩ | ⟨_, hne⟩
        · rw [h2, hps]
          rfl
        · exact absurd hct hne
    have hCNvals : ∀ c ∈ split_run df, c.1 = "Company Name" → c.2 = [] := by
      intro c hc hct
      rw [split_run_def] at hc
      rcases mem_setCol hc with ⟨_, h2⟩ | ⟨_, hne⟩
      · rw [h2, hps]
        rfl
      · exact absurd hct hne
    have hrun : split_run (split_run df) = split_run df := by
      rw [split_run_def (split_run df), hps', hd1']
      simp only [List.map_nil]
      rw [setCol_id hTvals]
      exact setCol_id hCNvals
    simp [split_ticker_column, hT3, hCNempty, hrun]

end StockUSA

open StockUSA

/-- C1: whenever `extract_table_data_fast` builds a table (adjusted headers
and rows both non-empty), the final header list has exactly the maximum row
width, and every padded row's length equals the final header list's length:
no ragged table is ever emitted. -/
theorem C1_no_ragged_table (headers : List String) (rows_data : List (List String))
    (hdrs' : List String) (rows' : List (List String))
    (h : extract_table_post headers rows_data = some (hdrs', rows')) :
    hdrs'.length = max_cols (adjust_headers headers) rows_data ∧
      ∀ row ∈ rows', row.length = hdrs'.length := by
  unfold extract_table_post at h
  set ha := adjust_headers headers with hha
  by_cases hcond : ha ≠ [] ∧ rows_data ≠ []
  · rw [if_pos hcond] at h
    injection h with h1
    injection h1 with hh hr
    subst hh
    subst hr
    refine ⟨reconcile_headers_length ha (max_cols ha rows_data), ?_⟩
    intro row hrow
    rw [reconcile_headers_length ha (max_cols ha rows_data)]
    exact pad_rows_length hrow (fun r hr => length_le_max_cols hr)
  · rw [if_neg hcond] at h
    cases h

/-- Witness for C1 at a concrete ragged input: three-column header, rows of
widths 2 and 4; the reconciled table is 4 columns wide and square. -/
theorem C1_no_ragged_table_witness :
    extract_table_post ["symbol", "Price", "Change"]
        [["AAPL", "Apple Inc."], ["MSFT", "Microsoft", "430.2", "+1.2%"]] =
      some (["Ticker", "Company Name", "Price", "Change"],
        [["AAPL", "Apple Inc.", "", ""], ["MSFT", "Microsoft", "430.2", "+1.2%"]]) ∧
    (["Ticker", "Company Name", "Price", "Change"] : List String).length =
        max_cols (adjust_headers ["symbol", "Price", "Change"])
          [["AAPL", "Apple Inc."], ["MSFT", "Microsoft", "430.2", "+1.2%"]] ∧
      ∀ row ∈ [["AAPL", "Apple Inc.", "", ""], ["MSFT", "Microsoft", "430.2", "+1.2%"]],
        row.length = (["Ticker", "Company Name", "Price", "Change"] : List String).length :=
  ⟨by decide,
   C1_no_ragged_table ["symbol", "Price", "Change"]
     [["AAPL", "Apple Inc."], ["MSFT", "Microsoft", "430.2", "+1.2%"]]
     ["Ticker", "Company Name", "Price", "Change"]
     [["AAPL", "Apple Inc.", "", ""], ["MSFT", "Microsoft", "430.2", "+1.2%"]]
     (by decide)⟩

/-- C2: `split_ticker_column` is idempotent on every DataFrame, and is a
no-op (returns the table unchanged) whenever a populated `Company Name`
column already exists. -/
theorem C2_split_ticker_idempotent (df : DF) :
    split_ticker_column (split_ticker_column df) = split_ticker_column df ∧
      (hasCol df "Company Name" = true ∧
          (getCol df "Company Name").any (fun c => c.isSome) = true →
        split_ticker_column df = df) := by
  constructor
  · by_cases hT : hasCol df "Ticker"
    · by_cases hP : (hasCol df "Company Name" &&
          (getCol df "Company Name").any (fun c => c.isSome)) = true
      · have h1 : split_ticker_column df = df := by
          simp [split_ticker_column, hT, hP]
        rw [h1]
        exact h1
      · have hfd : split_ticker_column df = split_run df := by
          simp [split_ticker_column, hT, hP]
        rw [hfd]
        exact split_run_fixed df hT
    · have h1 : split_ticker_column df = df := by
        simp [split_ticker_column, hT]
      rw [h1]
      exact h1
  · rintro ⟨h1, h2⟩
    exact split_ticker_noop df h1 h2

/-- Witness for C2 on an already-split table: applying the reconciler is a
no-op and hence idempotent there. -/
theorem C2_split_ticker_idempotent_witness :
    split_ticker_column (split_ticker_column
        [("Ticker", [some "AAPL"]), ("Company Name", [some "Apple Inc."])]) =
      split_ticker_column
        [("Ticker", [some "AAPL"]), ("Company Name", [some "Apple Inc."])] ∧
    split_ticker_column [("Ticker", [some "AAPL"]), ("Company Name", [some "Apple Inc."])] =
      [("Ticker", [some "AAPL"]), ("Company Name", [some "Apple Inc."])] :=
  ⟨(C2_split_ticker_idempotent
      [("Ticker", [some "AAPL"]), ("Company Name", [some "Apple Inc."])]).1,
   (C2_split_ticker_idempotent
      [("Ticker", [some "AAPL"]), ("Company Name", [some "Apple Inc."])]).2
     ⟨by decide, by decide⟩⟩

/-- C10: a `Company Name` column holding only empty strings counts as
populated under `notna().any()`, so `split_ticker_column` returns the
DataFrame unchanged and never splits combined text left in `Ticker`. -/
theorem C10_empty_string_company_noop (df : DF)
    (h1 : hasCol df "Company Name" = true)
    (h2 : getCol df "Company Name" ≠ [])
    (h3 : ∀ c ∈ getCol df "Company Name", c = some "") :
    split_ticker_column df = df := by
  apply split_ticker_noop df h1
  cases hg : getCol df "Company Name" with
  | nil => exact absurd hg h2
  | cons c cs =>
    have hc : c = some "" := h3 c (hg ▸ List.mem_cons_self c cs)
    simp [List.any_cons, hc]

/-- Witness for C10: a combined ticker/name text stays unsplit because the
all-empty-string `Company Name` column counts as populated. -/
theorem C10_empty_string_company_noop_witness :
    split_ticker_column
        [("Ticker", [some "AAPL\nApple Inc."]), ("Company Name", [some ""])] =
      [("Ticker", [some "AAPL\nApple Inc."]), ("Company Name", [some ""])] :=
  C10_empty_string_company_noop
    [("Ticker", [some "AAPL\nApple Inc."]), ("Company Name", [some ""])]
    (by decide) (by decide) (by decide)

/-- C3: for every page behaviour, `load_all_rows` performs at most 150 Load
More activations, the loop consumes a bounded number of iterations (at most
302) however long the response trace is, and the returned value is exactly
the number of successful clicks within the consumed prefix. -/
theorem C3_load_more_bounded (is_first_tab : Bool) (total : Nat) (env : LoadEnv) :
    (load_all_rows is_first_tab total env).1 ≤ 150 ∧
      (lm_loop env.events 0 0).2 ≤ 302 ∧
      (lm_loop env.events 0 0).1 =
        (env.events.take (lm_loop env.events 0 0).2).count LMEvent.visible := by
  refine ⟨?_, ?_, ?_⟩
  · unfold load_all_rows
    split
    · simp
    · simpa using lm_loop_clicks_le env.events 0 0 (by omega)
  · have := lm_loop_consumed_le env.events 0 0 (by omega)
    omega
  · simpa using lm_loop_clicks_count env.events 0 0

/-- Counterexample to C4 as stated: a non-first tab with cumulative maximum
100 and current count 105 takes the 95%-skip path straight to exhausted,
and `load_all_rows` returns with `total_rows_loaded` still 100 even though
the freshly sampled count 105 is larger — no update happens on this path. -/
theorem C4_counterexample :
    (load_all_rows false 100 ⟨105, [], 105⟩).2 = 100 ∧ 100 < 105 := by
  refine ⟨?_, by omega⟩
  unfold load_all_rows
  rw [if_pos ⟨rfl, by norm_num⟩]

/-- C4 amended: on the normal loop path `load_all_rows` re-samples the row
count and updates the cumulative maximum to `max total finalCount`; on the
95%-skip path it returns `(0, total)` immediately, performing no re-sample
and no update. -/
theorem C4_amended_resample (is_first_tab : Bool) (total : Nat) (env : LoadEnv) :
    (¬(is_first_tab = false ∧ (env.preCount : ℚ) ≥ (total : ℚ) * 0.95) →
      (load_all_rows is_first_tab total env).2 = max total env.finalCount) ∧
    (is_first_tab = false ∧ (env.preCount : ℚ) ≥ (total : ℚ) * 0.95 →
      load_all_rows is_first_tab total env = (0, total)) := by
  constructor
  · intro h
    unfold load_all_rows
    rw [if_neg h]
    show (if env.finalCount > total then env.finalCount else total) = max total env.finalCount
    split <;> omega
  · intro h
    unfold load_all_rows
    rw [if_pos h]

/-- Witness for the amended C4: a first tab updates the maximum from the
re-sampled count (10 becomes 42); the skip path of the counterexample
returns `(0, 100)` unchanged. -/
theorem C4_amended_resample_witness :
    (load_all_rows true 10 ⟨0, [], 42⟩).2 = max 10 42 ∧
      load_all_rows false 100 ⟨105, [], 105⟩ = (0, 100) :=
  ⟨(C4_amended_resample true 10 ⟨0, [], 42⟩).1 (by simp),
   (C4_amended_resample false 100 ⟨105, [], 105⟩).2 ⟨rfl, by norm_num⟩⟩

/-- C5: the cell text `$1,234,567.00` in a data column beyond the first two
is converted to the numeric value 1234567.00 with the millions display
format, its magnitude being at least one million and below one billion. -/
theorem C5_million_currency :
    formatDataCell 3 (some "$1,234,567.00") =
      ⟨some 1234567, some "$#,##0.00,\"M\"", some "right", FmtBranch.currency⟩ ∧
      (1000000 : ℚ) ≤ 1234567 ∧ (1234567 : ℚ) < 1000000000 := by
  refine ⟨?_, by norm_num, by norm_num⟩
  have hstrip : pyStrip "$1,234,567.00" = "$1,234,567.00" := by decide
  have hX : removeChars "$1,234,567.00" ['$', ',', '+'] = "1234567.00" := by decide
  have hval : (1 : ℚ) * ((1234567 : ℚ) + (0 : ℚ) / 10 ^ 2) = 1234567 := by norm_num
  have hpf : pyFloat "1234567.00" = some 1234567 := by
    show (parseMantissa ['1','2','3','4','5','6','7','.','0','0']).map
      (fun q => (1 : ℚ) * q) = _
    rw [show parseMantissa ['1','2','3','4','5','6','7','.','0','0'] =
      some ((1234567 : ℚ) + (0 : ℚ) / 10 ^ 2) from rfl]
    rw [Option.map_some', hval]
  have hAbs : pyAbs (1234567 : ℚ) = 1234567 := by
    unfold pyAbs
    rw [if_neg (by norm_num)]
  have hfmt : currency_number_format 1234567 = "$#,##0.00,\"M\"" := by
    unfold currency_number_format
    rw [hAbs, if_neg (by norm_num), if_pos (by norm_num)]
  show formatStripped 3 (pyStrip "$1,234,567.00") = _
  rw [hstrip]
  unfold formatStripped
  rw [if_neg (by omega), if_neg (by decide), if_pos (by decide), hX, hpf]
  dsimp only
  rw [hfmt]

/-- C9: for a data cell (column beyond the first two) without `%` whose
text passes the all-digits test, the currency branch handles it and, on a
successful parse, assigns a `$`-prefixed magnitude format even when the
text contains no `$`; the later plain-number branch, guarded by the same
test, is unreachable for every cell. -/
theorem C9_currency_shadows_plain (col_idx : Nat) (s : String)
    (hcol : 2 < col_idx)
    (hpc : s.data.contains '%' = false)
    (hdig : strippedDigitsTest s = true) :
    (formatDataCell col_idx (some s)).branch = FmtBranch.currency ∧
      (∀ num, pyFloat (removeChars s ['$', ',', '+']) = some num →
        (formatDataCell col_idx (some s)).numFmt = some (currency_number_format num)) ∧
      ∀ i v, (formatDataCell i v).branch ≠ FmtBranch.plainNumber := by
  have hs : s ≠ "" := by
    intro he
    subst he
    exact absurd hdig (by decide)
  have hstrip : pyStrip s = s := pyStrip_eq_self (strippedDigits_no_ws hdig)
  have hc2 : ¬ col_idx ≤ 2 := by omega
  have hcell : formatDataCell col_idx (some s) = formatStripped col_idx s := by
    show (if s = "" then (⟨none, none, none, FmtBranch.untouched⟩ : FmtResult)
      else formatStripped col_idx (pyStrip s)) = _
    rw [if_neg hs, hstrip]
  refine ⟨?_, ?_, ?_⟩
  · rw [hcell]
    unfold formatStripped
    rw [if_neg hc2, if_neg (by rw [hpc]; exact Bool.false_ne_true),
      if_pos (by simp [hdig])]
    cases hq : pyFloat (removeChars s ['$', ',', '+']) with
    | some num => rfl
    | none => cases hq2 : pyFloat (removeChars s [',', '+']) <;> rfl
  · intro num hnum
    rw [hcell]
    unfold formatStripped
    rw [if_neg hc2, if_neg (by rw [hpc]; exact Bool.false_ne_true),
      if_pos (by simp [hdig]), hnum]
  · intro i v
    cases v with
    | none => simp [formatDataCell]
    | some t =>
      by_cases ht : t = ""
      · simp [formatDataCell, ht]
      · have hcell2 : formatDataCell i (some t) = formatStripped i (pyStrip t) := by
          show (if t = "" then (⟨none, none, none, FmtBranch.untouched⟩ : FmtResult)
            else formatStripped i (pyStrip t)) = _
          rw [if_neg ht]
        rw [hcell2]
        unfold formatStripped
        by_cases hcol2 : i ≤ 2
        · rw [if_pos hcol2]
          simp
        · rw [if_neg hcol2]
          by_cases hp : (pyStrip t).data.contains '%'
          · rw [if_pos hp]
            cases hq : pyFloat (removeChars (pyStrip t) ['%', ',']) <;> simp
          · rw [if_neg hp]
            by_cases hcur : ((pyStrip t).data.contains '$' ||
                strippedDigitsTest (pyStrip t)) = true
            · rw [if_pos hcur]
              cases hq : pyFloat (removeChars (pyStrip t) ['$', ',', '+']) with
              | some num => simp
              | none => cases hq2 : pyFloat (removeChars (pyStrip t) [',', '+']) <;> simp
            · rw [if_neg hcur]
              have hdig2 : strippedDigitsTest (pyStrip t) = false := by
                rw [Bool.or_eq_true] at hcur
                push_neg at hcur
                cases hsd : strippedDigitsTest (pyStrip t)
                · rfl
                · exact absurd hsd hcur.2
              rw [if_neg (by simp [hdig2])]
              simp

/-- Witness for C9 at the `$`-less digit text `1,234`: the currency branch
takes it and the parse succeeds, yielding the `$`-thousands format. -/
theorem C9_currency_shadows_plain_witness :
    (formatDataCell 3 (some "1,234")).branch = FmtBranch.currency ∧
      (∀ num, pyFloat (removeChars "1,234" ['$', ',', '+']) = some num →
        (formatDataCell 3 (some "1,234")).numFmt = some (currency_number_format num)) ∧
      ∀ i v, (formatDataCell i v).branch ≠ FmtBranch.plainNumber :=
  C9_currency_shadows_plain 3 "1,234" (by omega) (by decide) (by decide)

/-- C6: when the first extracted header token lowercases to `ticker` or
`symbol`, the reconciled header list is `Ticker`, `Company Name`, then the
remaining original headers; in particular `[symbol, Price, Change]` becomes
`[Ticker, Company Name, Price, Change]`. -/
theorem C6_header_expansion (h : String) (t : List String)
    (hh : pyLower h = "ticker" ∨ pyLower h = "symbol") :
    adjust_headers (h :: t) = "Ticker" :: "Company Name" :: t ∧
      adjust_headers ["symbol", "Price", "Change"] =
        ["Ticker", "Company Name", "Price", "Change"] := by
  constructor
  · have hcond : (decide (pyLower h = "ticker") || decide (pyLower h = "symbol")) = true := by
      rcases hh with hh | hh <;> simp [hh]
    show (if (decide (pyLower h = "ticker") || decide (pyLower h = "symbol")) = true
        then "Ticker" :: "Company Name" :: t else h :: t) = _
    rw [if_pos hcond]
  · decide

/-- Witness for C6 at the concrete header `[symbol, Price, Change]`. -/
theorem C6_header_expansion_witness :
    adjust_headers ["symbol", "Price", "Change"] =
      ["Ticker", "Company Name", "Price", "Change"] :=
  (C6_header_expansion "symbol" ["Price", "Change"] (Or.inr (by decide))).1

/-- C7: a tab whose activation fails contributes an empty DataFrame without
running pagination or extraction, `scrape_all_tabs` still records one entry
per tab with the display names in the fixed order, and each failed tab's
entry is the empty result. -/
theorem C7_tab_failure_isolated (env : TabEnv) (tab_id tab_name : String)
    (hfail : env.clickOk tab_id = false) :
    scrape_tab env tab_id tab_name = ([], false) ∧
      (scrape_all_tabs env).map Prod.fst = tabs.map Prod.snd ∧
      ∀ p ∈ tabs, env.clickOk p.1 = false →
        (p.2, ([] : DF)) ∈ scrape_all_tabs env := by
  refine ⟨?_, ?_, ?_⟩
  · unfold scrape_tab
    rw [if_neg (by rw [hfail]; exact Bool.false_ne_true)]
  · unfold scrape_all_tabs
    rw [List.map_map]
    rfl
  · intro p hp hfailp
    unfold scrape_all_tabs
    apply List.mem_map.mpr
    refine ⟨p, hp, ?_⟩
    simp [scrape_tab, hfailp]

/-- Witness for C7: an environment whose only failing activation is the
`valuation` tab still yields all nine entries, with `Valuation` empty. -/
theorem C7_tab_failure_isolated_witness :
    scrape_tab ⟨fun i => !(i == "valuation"), fun _ => []⟩ "valuation" "Valuation" =
        ([], false) ∧
      (scrape_all_tabs ⟨fun i => !(i == "valuation"), fun _ => []⟩).map Prod.fst =
        tabs.map Prod.snd ∧
      ∀ p ∈ tabs, (fun i => !(i == "valuation")) p.1 = false →
        (p.2, ([] : DF)) ∈ scrape_all_tabs ⟨fun i => !(i == "valuation"), fun _ => []⟩ :=
  C7_tab_failure_isolated ⟨fun i => !(i == "valuation"), fun _ => []⟩
    "valuation" "Valuation" (by decide)

/-- C8: `close` never propagates an exception: both teardown blocks are
independently guarded, a failing step is logged and swallowed (the engine
is still stopped when the browser teardown raises), and closing with no
resources acquired returns cleanly with nothing to do. -/
theorem C8_close_never_raises (res : ScraperRes) (env : CloseEnv) :
    (∃ logs, close res env = Except.ok logs) ∧
      (res.playwright = true ∧ env.playwrightStopFails = none →
        ∃ logs, close res env = Except.ok logs ∧ "🔒 Playwright stopped" ∈ logs) ∧
      close ⟨false, false⟩ env = Except.ok [] := by
  obtain ⟨l1, h1⟩ := pyTryLog_ok (closeBrowserStep res env)
    (fun e => "⚠ Error closing browser: " ++ e)
  obtain ⟨l2, h2⟩ := pyTryLog_ok (stopPlaywrightStep res env)
    (fun e => "⚠ Error stopping playwright: " ++ e)
  have hclose : close res env = Except.ok (l1 ++ l2) := by
    unfold close
    rw [h1, h2]
    rfl
  refine ⟨⟨l1 ++ l2, hclose⟩, ?_, rfl⟩
  rintro ⟨hp, hf⟩
  have hstop : stopPlaywrightStep res env = Except.ok ["🔒 Playwright stopped"] := by
    unfold stopPlaywrightStep
    rw [if_pos hp, hf]
  have h2' : l2 = ["🔒 Playwright stopped"] := by
    rw [hstop] at h2
    injection h2 with h2'
    exact h2'.symm
  refine ⟨l1 ++ l2, hclose, ?_⟩
  rw [h2']
  exact List.mem_append_right l1 (List.mem_singleton.mpr rfl)

/-- Witness for C8: with both resources live and the browser close raising,
`close` still returns normally and the engine is stopped. -/
theorem C8_close_never_raises_witness :
    ∃ logs, close ⟨true, true⟩ ⟨some "boom", none⟩ = Except.ok logs ∧
      "🔒 Playwright stopped" ∈ logs :=
  (C8_close_never_raises ⟨true, true⟩ ⟨some "boom", none⟩).2.1 ⟨rfl, rfl⟩

